import Mathlib

/-!
Shallow embedding of `src/main2.py` (OpenMRS → DHIS2 sync driver).

The script's observable behaviour is modelled as pure state passing over a
`World` (staging directory contents, snapshot file, durable progress
document) plus a chronological list of `Event`s recording every call made
to an external collaborator or durable store.  `sys.exit(1)` and uncaught
Python exceptions (both of which terminate the interpreter with a non-zero
status) are modelled as an `exit = some 1` field that aborts the batch
loop.  External collaborators (database connector, per-unit processor,
uploader, `os.unlink`) are deterministic oracles bundled in `Collab`.
-/

namespace Sync

abbrev LocationId := String

abbrev PatientId := String

abbrev EncounterId := String

/-- A Python dict `patient_id -> [encounter_ids]` in insertion order
(`fetch_patient_encounters_by_location` result / snapshot file content). -/
abbrev UnitMap := List (PatientId × List EncounterId)

/-- The `logs/progress.json` document: `location_id -> [patient_ids]`. -/
abbrev ProgressDoc := List (LocationId × List PatientId)

/-- One entry of the `patients_to_sync` staging directory (`os.listdir`). -/
structure Entry where
  name : String
  isFile : Bool
deriving Repr, DecidableEq

/-- Observable calls made by the script, in chronological order. -/
inductive Event where
  | unlink (name : String)
  | mkTracker (path : String)
  | resetLoc (loc : LocationId)
  | connect
  | fetch (loc : LocationId)
  | snapshotWrite (m : UnitMap)
  | snapshotRead (m : UnitMap)
  | procUnit (pid : PatientId) (encs : List EncounterId) (loc : LocationId)
  | recordProg (loc : LocationId) (pid : PatientId)
  | upload (loc : LocationId)
deriving Repr, DecidableEq

/-- Durable state touched by `main2.py`. -/
structure World where
  staging : List Entry
  snapshot : Option UnitMap
  progress : ProgressDoc
deriving Repr, DecidableEq

/-- Oracles for the external collaborators.  `fetch` returns `none` when the
fetch call raises, `some none` when it returns Python `None`, and
`some (some m)` on success.  `unlinkOk name = false` means `os.unlink`
raises on that file. -/
structure Collab where
  connectOk : LocationId → Bool
  fetch : LocationId → Option (Option UnitMap)
  procOk : PatientId → List EncounterId → LocationId → Bool
  unlinkOk : String → Bool

/-- A `ProgressTracker('logs/progress.json')` object (its state lives in the
progress file, modelled in `World.progress`). -/
structure ProgressTracker where
  path : String
deriving Repr, DecidableEq

/-- Modelled from the spec: `utils/progress_tracker.py` is not in `src/`.
§4.1 `get(location)` returns `None` if the location has never been
initialized, otherwise its current completed-unit list. -/
def get_progress (doc : ProgressDoc) (loc : LocationId) : Option (List PatientId) :=
  match doc with
  | [] => none
  | (l, xs) :: rest => if l = loc then some xs else get_progress rest loc

/-- Helper for the progress document: set (or insert at the end) the entry
for `loc`, keeping the order of the other entries. -/
def setEntry (doc : ProgressDoc) (loc : LocationId) (v : List PatientId) : ProgressDoc :=
  match doc with
  | [] => [(loc, v)]
  | (l, xs) :: rest => if l = loc then (loc, v) :: rest else (l, xs) :: setEntry rest loc v

/-- Modelled from the spec: `utils/progress_tracker.py` is not in `src/`.
§4.1 `reset(location)` sets the location's entry to an empty list. -/
def reset_progress (doc : ProgressDoc) (loc : LocationId) : ProgressDoc :=
  setEntry doc loc []

/-- Modelled from the spec: `utils/progress_tracker.py` is not in `src/`.
§4.1 `record(location, patientId)` appends `patientId` to the location's
list and persists the document before returning. -/
def update_progress (doc : ProgressDoc) (loc : LocationId) (pid : PatientId) : ProgressDoc :=
  setEntry doc loc ((get_progress doc loc).getD [] ++ [pid])

/-- Result of `clear_patients_to_sync_folder` (lines 29-39): directory
contents left behind, unlink calls made, and whether `sys.exit(1)` ran. -/
structure ClearResult where
  staging : List Entry
  events : List Event
  exit : Option Nat
deriving Repr, DecidableEq

/-- Lines 32-39: for each directory entry in listing order, if it is a
regular file, unlink it; any deletion failure logs and exits 1 (entries
after the failing one are untouched). -/
def clearFolder (c : Collab) : List Entry → ClearResult
  | [] => ⟨[], [], none⟩
  | e :: rest =>
    if e.isFile then
      if c.unlinkOk e.name then
        let r := clearFolder c rest
        ⟨r.staging, Event.unlink e.name :: r.events, r.exit⟩
      else
        ⟨e :: rest, [], some 1⟩
    else
      let r := clearFolder c rest
      ⟨e :: r.staging, r.events, r.exit⟩

/-- Result of the per-unit processing loop (lines 88-93). -/
structure LoopResult where
  progress : ProgressDoc
  events : List Event
  exit : Option Nat
deriving Repr, DecidableEq

/-- Lines 88-93: for each `(patient_id, encounter_ids)` of the snapshot, in
order, call `process_patient_and_encounters(patient_id, encounter_ids,
location_id)` and then `update_progress(location_id, patient_id)`.  A
raise from the collaborator is caught at line 94 and exits 1, leaving the
progress written so far. -/
def processUnits (c : Collab) (loc : LocationId) (prog : ProgressDoc) : UnitMap → LoopResult
  | [] => ⟨prog, [], none⟩
  | (pid, encs) :: rest =>
    if c.procOk pid encs loc then
      let r := processUnits c loc (update_progress prog loc pid) rest
      ⟨r.progress, Event.procUnit pid encs loc :: Event.recordProg loc pid :: r.events, r.exit⟩
    else
      ⟨prog, [Event.procUnit pid encs loc], some 1⟩

/-- Result of one `process_location` call, or of the whole batch. -/
structure RunResult where
  world : World
  events : List Event
  exit : Option Nat
deriving Repr, DecidableEq

/-- Lines 64-100 of `process_location`: connect (line 65, outside the
`try`; a raise is an uncaught exception, non-zero exit), fetch (line 68;
`None` hits `sys.exit(1)` at line 71, a raise is caught at line 94 and
exits 1), truncate-and-write `encounters_to_process.json` (lines 75-80),
read it back (lines 84-85; the JSON round trip on a string-keyed dict is
the identity), run the loop, and on full success hand off for upload
(line 100). -/
def run_from_connect (c : Collab) (loc : LocationId) (kept : List Entry)
    (snap0 : Option UnitMap) (prog1 : ProgressDoc) (evs1 : List Event) : RunResult :=
  let evs2 := evs1 ++ [Event.connect]
  if c.connectOk loc then
    let evs3 := evs2 ++ [Event.fetch loc]
    match c.fetch loc with
    | none => ⟨⟨kept, snap0, prog1⟩, evs3, some 1⟩
    | some none => ⟨⟨kept, snap0, prog1⟩, evs3, some 1⟩
    | some (some m) =>
      let evs5 := evs3 ++ [Event.snapshotWrite m, Event.snapshotRead m]
      match processUnits c loc prog1 m with
      | ⟨prog2, uevs, some n⟩ => ⟨⟨kept, some m, prog2⟩, evs5 ++ uevs, some n⟩
      | ⟨prog2, uevs, none⟩ => ⟨⟨kept, some m, prog2⟩, evs5 ++ uevs ++ [Event.upload loc], none⟩
  else
    ⟨⟨kept, snap0, prog1⟩, evs2, some 1⟩

/-- Lines 41-100.  The `tracker` parameter is rebound at line 49 to a fresh
`ProgressTracker('logs/progress.json')` before any use, so it is never
consulted.  Lines 45-46 clear the staging directory; lines 52-58 load the
resume marker, or reset it when the location was never seen. -/
def process_location (c : Collab) (loc : LocationId) (_tracker : ProgressTracker)
    (w : World) : RunResult :=
  match clearFolder c w.staging with
  | ⟨kept, cevs, some n⟩ => ⟨⟨kept, w.snapshot, w.progress⟩, cevs, some n⟩
  | ⟨kept, cevs, none⟩ =>
    let evs0 := cevs ++ [Event.mkTracker "logs/progress.json"]
    match get_progress w.progress loc with
    | some _ => run_from_connect c loc kept w.snapshot w.progress evs0
    | none =>
      run_from_connect c loc kept w.snapshot (reset_progress w.progress loc)
        (evs0 ++ [Event.resetLoc loc])

/-- Lines 127-129: for each location id, in order, call
`process_location(location_id, sync_service, ProgressTracker('logs/progress.json'))`
— the third argument constructs a fresh tracker per iteration.  A
non-zero exit anywhere stops the batch. -/
def runLocations (c : Collab) (w : World) : List LocationId → RunResult
  | [] => ⟨w, [], none⟩
  | loc :: rest =>
    match process_location c loc ⟨"logs/progress.json"⟩ w with
    | ⟨w2, evs, some n⟩ => ⟨w2, Event.mkTracker "logs/progress.json" :: evs, some n⟩
    | ⟨w2, evs, none⟩ =>
      let r := runLocations c w2 rest
      ⟨r.world, Event.mkTracker "logs/progress.json" :: evs ++ r.events, r.exit⟩

/-- Python `str.strip()`: drop leading and trailing whitespace.  (Defined
over the character list so that it evaluates by kernel reduction.) -/
def strip (s : String) : String :=
  ⟨((s.data.dropWhile Char.isWhitespace).reverse.dropWhile Char.isWhitespace).reverse⟩

/-- Lines 14-27.  The roster file is modelled as `none` (missing) or the
list of its lines.  Line 21 keeps `line.strip()` for each line whose strip
is non-empty. -/
def read_location_ids (file : Option (List String)) : Except Nat (List String) :=
  match file with
  | none => Except.error 1
  | some lines =>
    let location_ids := lines.filterMap fun line =>
      if strip line ≠ "" then some (strip line) else none
    if location_ids.isEmpty then Except.error 1 else Except.ok location_ids

/-- Lines 102-129: parse the roster, then drive every location. -/
def main_run (c : Collab) (roster : Option (List String)) (w : World) : RunResult :=
  match read_location_ids roster with
  | Except.error n => ⟨w, [], some n⟩
  | Except.ok ids => runLocations c w ids

/-- The per-unit events emitted by a fully successful processing loop:
one collaborator call immediately followed by one progress record, per
snapshot entry, in snapshot order. -/
def unitEvents (loc : LocationId) : UnitMap → List Event
  | [] => []
  | (pid, encs) :: rest =>
    Event.procUnit pid encs loc :: Event.recordProg loc pid :: unitEvents loc rest

/-- The progress document after recording every patient of `m` in order. -/
def recordAll (prog : ProgressDoc) (loc : LocationId) : UnitMap → ProgressDoc
  | [] => prog
  | (pid, _) :: rest => recordAll (update_progress prog loc pid) loc rest

def isProcUnit : Event → Bool
  | Event.procUnit _ _ _ => true
  | _ => false

def isUpload : Event → Bool
  | Event.upload _ => true
  | _ => false

def isMkTracker : Event → Bool
  | Event.mkTracker _ => true
  | _ => false

/-- The per-unit collaborator calls of a trace, in order. -/
def procEvents (evs : List Event) : List Event :=
  evs.filter isProcUnit

/-- How many upload hand-offs a trace contains. -/
def countUpload (evs : List Event) : Nat :=
  evs.countP isUpload

/-- How many `ProgressTracker(...)` constructions a trace contains. -/
def countMkTracker (evs : List Event) : Nat :=
  evs.countP isMkTracker

/-- The locations fetched in a trace, in order. -/
def fetchLocs (evs : List Event) : List LocationId :=
  evs.filterMap fun ev =>
    match ev with
    | Event.fetch l => some l
    | _ => none

/-- Events that belong to the setup phase of a location run (staging clear,
tracker construction, progress reset, connect, fetch): anything that is not
a snapshot write/read, a per-unit call, a progress record or an upload. -/
def isSetup : Event → Bool
  | Event.unlink _ => true
  | Event.mkTracker _ => true
  | Event.resetLoc _ => true
  | Event.connect => true
  | Event.fetch _ => true
  | _ => false

/-! ### Concrete fixtures for evaluating the theorems on closed inputs -/

def mFix : UnitMap := [("P1", ["E1", "E2"]), ("P2", ["E3"])]

def cAllOk : Collab :=
  ⟨fun _ => true, fun _ => some (some mFix), fun _ _ _ => true, fun _ => true⟩

def mFail : UnitMap := [("P1", ["E1"]), ("P2", ["E2"]), ("P3", ["E3"])]

def cFailP2 : Collab :=
  ⟨fun _ => true, fun _ => some (some mFail), fun p _ _ => p != "P2", fun _ => true⟩

def cNoFetch : Collab :=
  ⟨fun _ => true, fun _ => some none, fun _ _ _ => true, fun _ => true⟩

def cNoDelete : Collab :=
  ⟨fun _ => true, fun _ => some (some mFix), fun _ _ _ => true, fun _ => false⟩

def cEmptyFetch : Collab :=
  ⟨fun _ => true, fun _ => some (some []), fun _ _ _ => true, fun _ => true⟩

def w0 : World := ⟨[], none, []⟩

def w1 : World :=
  ⟨[⟨"a.json", true⟩, ⟨"sub", false⟩], some [("Q", [])], [("L1", ["P1"])]⟩

def tJson : ProgressTracker := ⟨"logs/progress.json"⟩

def t0 : ProgressTracker := ⟨"unused"⟩

def wBad : World := ⟨[⟨"f1", true⟩], none, []⟩

/-! ### Lemmas about the progress document -/

theorem get_setEntry_self (doc : ProgressDoc) (loc : LocationId) (v : List PatientId) :
    get_progress (setEntry doc loc v) loc = some v := by
  induction doc with
  | nil => simp [setEntry, get_progress]
  | cons hd tl ih =>
    obtain ⟨l, xs⟩ := hd
    by_cases h : l = loc
    · simp [setEntry, h, get_progress]
    · simp [setEntry, h, get_progress, ih]

theorem get_update_self (doc : ProgressDoc) (loc : LocationId) (pid : PatientId) :
    get_progress (update_progress doc loc pid) loc =
      some ((get_progress doc loc).getD [] ++ [pid]) := by
  simp [update_progress, get_setEntry_self]

theorem get_recordAll (doc : ProgressDoc) (loc : LocationId) (m : UnitMap)
    (xs : List PatientId) (h : get_progress doc loc = some xs) :
    get_progress (recordAll doc loc m) loc = some (xs ++ m.map Prod.fst) := by
  induction m generalizing doc xs with
  | nil => simpa [recordAll] using h
  | cons u rest ih =>
    obtain ⟨pid, encs⟩ := u
    have h2 : get_progress (update_progress doc loc pid) loc = some (xs ++ [pid]) := by
      rw [get_update_self, h]
      simp
    rw [recordAll, ih _ _ h2]
    simp

/-! ### Lemmas about the staging clear -/

theorem clearFolder_all_ok (c : Collab) (l : List Entry)
    (h : ∀ e ∈ l, e.isFile = true → c.unlinkOk e.name = true) :
    clearFolder c l =
      ⟨l.filter (fun e => !e.isFile),
       (l.filter (fun e => e.isFile)).map (fun e => Event.unlink e.name), none⟩ := by
  induction l with
  | nil => rfl
  | cons e rest ih =>
    have hrest : ∀ x ∈ rest, x.isFile = true → c.unlinkOk x.name = true :=
      fun x hx => h x (List.mem_cons_of_mem _ hx)
    by_cases hf : e.isFile = true
    · have hu : c.unlinkOk e.name = true := h e (List.mem_cons_self _ _) hf
      simp [clearFolder, hf, hu, ih hrest]
    · simp [clearFolder, hf, ih hrest, Bool.of_not_eq_true hf]

theorem clearFolder_fail (c : Collab) (l : List Entry)
    (h : ∃ e ∈ l, e.isFile = true ∧ c.unlinkOk e.name = false) :
    (clearFolder c l).exit = some 1 := by
  induction l with
  | nil => simp at h
  | cons e rest ih =>
    by_cases hf : e.isFile = true
    · by_cases hu : c.unlinkOk e.name = true
      · have hr : ∃ x ∈ rest, x.isFile = true ∧ c.unlinkOk x.name = false := by
          rcases h with ⟨x, hx, hxf, hxu⟩
          rcases List.mem_cons.mp hx with rfl | hx'
          · rw [hu] at hxu; cases hxu
          · exact ⟨x, hx', hxf, hxu⟩
        simp [clearFolder, hf, hu, ih hr]
      · simp [clearFolder, hf, hu]
    · have hr : ∃ x ∈ rest, x.isFile = true ∧ c.unlinkOk x.name = false := by
        rcases h with ⟨x, hx, hxf, hxu⟩
        rcases List.mem_cons.mp hx with rfl | hx'
        · exact absurd hxf hf
        · exact ⟨x, hx', hxf, hxu⟩
      simp [clearFolder, Bool.of_not_eq_true hf, ih hr]

theorem clearFolder_events_unlink (c : Collab) (l : List Entry) :
    ∀ ev ∈ (clearFolder c l).events, ∃ n, ev = Event.unlink n := by
  induction l with
  | nil => simp [clearFolder]
  | cons e rest ih =>
    by_cases hf : e.isFile = true
    · by_cases hu : c.unlinkOk e.name = true
      · intro ev hev
        simp [clearFolder, hf, hu] at hev
        rcases hev with rfl | hev
        · exact ⟨e.name, rfl⟩
        · exact ih ev hev
      · simp [clearFolder, hf, hu]
    · intro ev hev
      simp [clearFolder, Bool.of_not_eq_true hf] at hev
      exact ih ev hev

/-! ### Lemmas about the processing loop -/

theorem processUnits_all_ok (c : Collab) (loc : LocationId) (m : UnitMap)
    (prog : ProgressDoc) (h : ∀ u ∈ m, c.procOk u.1 u.2 loc = true) :
    processUnits c loc prog m = ⟨recordAll prog loc m, unitEvents loc m, none⟩ := by
  induction m generalizing prog with
  | nil => rfl
  | cons u rest ih =>
    obtain ⟨pid, encs⟩ := u
    have hu : c.procOk pid encs loc = true := h _ (List.mem_cons_self _ _)
    have hrest : ∀ x ∈ rest, c.procOk x.1 x.2 loc = true :=
      fun x hx => h x (List.mem_cons_of_mem _ hx)
    simp [processUnits, hu, ih _ hrest, recordAll, unitEvents]

theorem processUnits_fail (c : Collab) (loc : LocationId) (pre post : UnitMap)
    (pid : PatientId) (encs : List EncounterId) (prog : ProgressDoc)
    (hpre : ∀ u ∈ pre, c.procOk u.1 u.2 loc = true)
    (hfail : c.procOk pid encs loc = false) :
    processUnits c loc prog (pre ++ (pid, encs) :: post) =
      ⟨recordAll prog loc pre, unitEvents loc pre ++ [Event.procUnit pid encs loc],
       some 1⟩ := by
  induction pre generalizing prog with
  | nil => simp [processUnits, hfail, recordAll, unitEvents]
  | cons u rest ih =>
    obtain ⟨p, e⟩ := u
    have hu : c.procOk p e loc = true := hpre _ (List.mem_cons_self _ _)
    have hrest : ∀ x ∈ rest, c.procOk x.1 x.2 loc = true :=
      fun x hx => hpre x (List.mem_cons_of_mem _ hx)
    simp [processUnits, hu, ih _ hrest, recordAll, unitEvents]

theorem processUnits_events_shape (c : Collab) (loc : LocationId) (m : UnitMap)
    (prog : ProgressDoc) :
    ∀ ev ∈ (processUnits c loc prog m).events,
      (∃ p e, ev = Event.procUnit p e loc ∧ (p, e) ∈ m) ∨
      (∃ p, ev = Event.recordProg loc p ∧ p ∈ m.map Prod.fst) := by
  induction m generalizing prog with
  | nil => simp [processUnits]
  | cons u rest ih =>
    obtain ⟨pid, encs⟩ := u
    by_cases hp : c.procOk pid encs loc = true
    · intro ev hev
      simp [processUnits, hp] at hev
      rcases hev with rfl | rfl | hev
      · exact Or.inl ⟨pid, encs, rfl, by simp⟩
      · exact Or.inr ⟨pid, rfl, by simp⟩
      · rcases ih _ ev hev with ⟨p, e, rfl, hm⟩ | ⟨p, rfl, hm⟩
        · exact Or.inl ⟨p, e, rfl, by simp [hm]⟩
        · exact Or.inr ⟨p, rfl, by rw [List.map_cons]; exact List.mem_cons_of_mem _ hm⟩
    · intro ev hev
      simp [processUnits, Bool.of_not_eq_true hp] at hev
      subst hev
      exact Or.inl ⟨pid, encs, rfl, by simp⟩

theorem procEvents_unitEvents (loc : LocationId) (m : UnitMap) :
    procEvents (unitEvents loc m) = m.map (fun u => Event.procUnit u.1 u.2 loc) := by
  induction m with
  | nil => rfl
  | cons u rest ih =>
    obtain ⟨p, e⟩ := u
    simp [unitEvents, procEvents, isProcUnit] at ih ⊢
    exact ih

/-! ### Trace bookkeeping lemmas -/

theorem events_of_clear (c : Collab) (l : List Entry) (kept : List Entry)
    (cevs : List Event) (ex : Option Nat) (h : clearFolder c l = ⟨kept, cevs, ex⟩) :
    ∀ ev ∈ cevs, ∃ n, ev = Event.unlink n := by
  have h2 := clearFolder_events_unlink c l
  rw [h] at h2
  exact h2

theorem procEvents_append (l1 l2 : List Event) :
    procEvents (l1 ++ l2) = procEvents l1 ++ procEvents l2 := by
  simp [procEvents]

theorem procEvents_of_unlink (l : List Event)
    (h : ∀ ev ∈ l, ∃ n, ev = Event.unlink n) : procEvents l = [] := by
  induction l with
  | nil => rfl
  | cons ev rest ih =>
    obtain ⟨n, rfl⟩ := h ev (List.mem_cons_self _ _)
    have hrest := ih fun x hx => h x (List.mem_cons_of_mem _ hx)
    simp only [procEvents] at hrest ⊢
    rw [List.filter_cons]
    simp [isProcUnit, hrest]

/-! ### Unfolding lemmas for the orchestrator stages -/

theorem process_location_clear_fail (c : Collab) (loc : LocationId)
    (t : ProgressTracker) (w : World) (kept : List Entry) (cevs : List Event) (n : Nat)
    (hclear : clearFolder c w.staging = ⟨kept, cevs, some n⟩) :
    process_location c loc t w = ⟨⟨kept, w.snapshot, w.progress⟩, cevs, some n⟩ := by
  simp only [process_location, hclear]

theorem process_location_resume (c : Collab) (loc : LocationId) (t : ProgressTracker)
    (w : World) (kept : List Entry) (cevs : List Event) (xs : List PatientId)
    (hclear : clearFolder c w.staging = ⟨kept, cevs, none⟩)
    (hget : get_progress w.progress loc = some xs) :
    process_location c loc t w =
      run_from_connect c loc kept w.snapshot w.progress
        (cevs ++ [Event.mkTracker "logs/progress.json"]) := by
  simp only [process_location, hclear, hget]

theorem process_location_first (c : Collab) (loc : LocationId) (t : ProgressTracker)
    (w : World) (kept : List Entry) (cevs : List Event)
    (hclear : clearFolder c w.staging = ⟨kept, cevs, none⟩)
    (hget : get_progress w.progress loc = none) :
    process_location c loc t w =
      run_from_connect c loc kept w.snapshot (reset_progress w.progress loc)
        (cevs ++ [Event.mkTracker "logs/progress.json"] ++ [Event.resetLoc loc]) := by
  simp only [process_location, hclear, hget, List.append_assoc]

theorem run_from_connect_no_connect (c : Collab) (loc : LocationId) (kept : List Entry)
    (snap0 : Option UnitMap) (prog1 : ProgressDoc) (evs1 : List Event)
    (hconn : c.connectOk loc = false) :
    run_from_connect c loc kept snap0 prog1 evs1 =
      ⟨⟨kept, snap0, prog1⟩, evs1 ++ [Event.connect], some 1⟩ := by
  simp [run_from_connect, hconn]

theorem run_from_connect_fetch_fail (c : Collab) (loc : LocationId) (kept : List Entry)
    (snap0 : Option UnitMap) (prog1 : ProgressDoc) (evs1 : List Event)
    (hconn : c.connectOk loc = true)
    (hfail : c.fetch loc = none ∨ c.fetch loc = some none) :
    run_from_connect c loc kept snap0 prog1 evs1 =
      ⟨⟨kept, snap0, prog1⟩, evs1 ++ [Event.connect] ++ [Event.fetch loc], some 1⟩ := by
  rcases hfail with h | h <;> simp [run_from_connect, hconn, h]

theorem run_from_connect_all_ok (c : Collab) (loc : LocationId) (kept : List Entry)
    (snap0 : Option UnitMap) (prog1 : ProgressDoc) (evs1 : List Event) (m : UnitMap)
    (hconn : c.connectOk loc = true)
    (hfetch : c.fetch loc = some (some m))
    (hproc : ∀ u ∈ m, c.procOk u.1 u.2 loc = true) :
    run_from_connect c loc kept snap0 prog1 evs1 =
      ⟨⟨kept, some m, recordAll prog1 loc m⟩,
       evs1 ++ [Event.connect] ++ [Event.fetch loc]
         ++ [Event.snapshotWrite m, Event.snapshotRead m]
         ++ unitEvents loc m ++ [Event.upload loc], none⟩ := by
  simp [run_from_connect, hconn, hfetch, processUnits_all_ok c loc m prog1 hproc]

theorem run_from_connect_unit_fail (c : Collab) (loc : LocationId) (kept : List Entry)
    (snap0 : Option UnitMap) (prog1 : ProgressDoc) (evs1 : List Event)
    (pre post : UnitMap) (pid : PatientId) (encs : List EncounterId)
    (hconn : c.connectOk loc = true)
    (hfetch : c.fetch loc = some (some (pre ++ (pid, encs) :: post)))
    (hpre : ∀ u ∈ pre, c.procOk u.1 u.2 loc = true)
    (hfail : c.procOk pid encs loc = false) :
    run_from_connect c loc kept snap0 prog1 evs1 =
      ⟨⟨kept, some (pre ++ (pid, encs) :: post), recordAll prog1 loc pre⟩,
       evs1 ++ [Event.connect] ++ [Event.fetch loc]
         ++ [Event.snapshotWrite (pre ++ (pid, encs) :: post),
             Event.snapshotRead (pre ++ (pid, encs) :: post)]
         ++ unitEvents loc pre ++ [Event.procUnit pid encs loc], some 1⟩ := by
  simp [run_from_connect, hconn, hfetch,
    processUnits_fail c loc pre post pid encs prog1 hpre hfail]

/-! ### Setup-event lemmas -/

theorem isSetup_of_unlink (l : List Event)
    (h : ∀ ev ∈ l, ∃ n, ev = Event.unlink n) : ∀ ev ∈ l, isSetup ev = true := by
  intro ev hev
  obtain ⟨n, rfl⟩ := h ev hev
  rfl

theorem forall_setup_append (l1 l2 : List Event)
    (h1 : ∀ ev ∈ l1, isSetup ev = true) (h2 : ∀ ev ∈ l2, isSetup ev = true) :
    ∀ ev ∈ l1 ++ l2, isSetup ev = true := by
  intro ev hev
  rcases List.mem_append.mp hev with h | h
  · exact h1 ev h
  · exact h2 ev h

theorem no_procUnit_of_setup (l : List Event) (h : ∀ ev ∈ l, isSetup ev = true)
    (p : PatientId) (e : List EncounterId) (lo : LocationId) :
    Event.procUnit p e lo ∉ l := by
  intro hmem
  have h2 := h _ hmem
  simp [isSetup] at h2

theorem no_recordProg_of_setup (l : List Event) (h : ∀ ev ∈ l, isSetup ev = true)
    (lo : LocationId) (p : PatientId) : Event.recordProg lo p ∉ l := by
  intro hmem
  have h2 := h _ hmem
  simp [isSetup] at h2

theorem no_snapshotWrite_of_setup (l : List Event) (h : ∀ ev ∈ l, isSetup ev = true)
    (m : UnitMap) : Event.snapshotWrite m ∉ l := by
  intro hmem
  have h2 := h _ hmem
  simp [isSetup] at h2

theorem no_snapshotRead_of_setup (l : List Event) (h : ∀ ev ∈ l, isSetup ev = true)
    (m : UnitMap) : Event.snapshotRead m ∉ l := by
  intro hmem
  have h2 := h _ hmem
  simp [isSetup] at h2

theorem no_upload_of_setup (l : List Event) (h : ∀ ev ∈ l, isSetup ev = true)
    (lo : LocationId) : Event.upload lo ∉ l := by
  intro hmem
  have h2 := h _ hmem
  simp [isSetup] at h2

/-! ### Further loop and stage lemmas -/

theorem processUnits_progress_extends (c : Collab) (loc : LocationId) (m : UnitMap)
    (prog : ProgressDoc) (xs : List PatientId) (hg : get_progress prog loc = some xs) :
    ∃ ys, get_progress (processUnits c loc prog m).progress loc = some (xs ++ ys) := by
  induction m generalizing prog xs with
  | nil => exact ⟨[], by simpa [processUnits]⟩
  | cons u rest ih =>
    obtain ⟨pid, encs⟩ := u
    by_cases hp : c.procOk pid encs loc = true
    · have hg2 : get_progress (update_progress prog loc pid) loc = some (xs ++ [pid]) := by
        rw [get_update_self, hg]
        simp
      obtain ⟨ys, hy⟩ := ih _ _ hg2
      refine ⟨[pid] ++ ys, ?_⟩
      simp only [processUnits, hp, if_true]
      rw [hy]
      simp
    · exact ⟨[], by simpa [processUnits, Bool.of_not_eq_true hp]⟩

theorem run_from_connect_fetch_ok (c : Collab) (loc : LocationId) (kept : List Entry)
    (snap0 : Option UnitMap) (prog1 : ProgressDoc) (evs1 : List Event) (m : UnitMap)
    (hconn : c.connectOk loc = true)
    (hfetch : c.fetch loc = some (some m)) :
    (run_from_connect c loc kept snap0 prog1 evs1).world.snapshot = some m ∧
    ∃ tail, (run_from_connect c loc kept snap0 prog1 evs1).events =
        evs1 ++ [Event.connect] ++ [Event.fetch loc]
          ++ [Event.snapshotWrite m, Event.snapshotRead m] ++ tail ∧
      ∀ p e l, Event.procUnit p e l ∈ tail → (p, e) ∈ m ∧ l = loc := by
  rcases hloop : processUnits c loc prog1 m with ⟨p2, uevs, ex⟩
  have hshape := processUnits_events_shape c loc m prog1
  rw [hloop] at hshape
  have hu : ∀ p e l, Event.procUnit p e l ∈ uevs → (p, e) ∈ m ∧ l = loc := by
    intro p e l hmem
    rcases hshape _ hmem with ⟨p2, e2, heq, hm⟩ | ⟨p2, heq, hm⟩
    · cases heq
      exact ⟨hm, rfl⟩
    · cases heq
  cases ex with
  | some n =>
    have hres : run_from_connect c loc kept snap0 prog1 evs1 =
        ⟨⟨kept, some m, p2⟩,
         evs1 ++ [Event.connect] ++ [Event.fetch loc]
           ++ [Event.snapshotWrite m, Event.snapshotRead m] ++ uevs, some n⟩ := by
      simp [run_from_connect, hconn, hfetch, hloop]
    rw [hres]
    exact ⟨rfl, uevs, rfl, hu⟩
  | none =>
    have hres : run_from_connect c loc kept snap0 prog1 evs1 =
        ⟨⟨kept, some m, p2⟩,
         evs1 ++ [Event.connect] ++ [Event.fetch loc]
           ++ [Event.snapshotWrite m, Event.snapshotRead m]
           ++ (uevs ++ [Event.upload loc]), none⟩ := by
      simp [run_from_connect, hconn, hfetch, hloop]
    rw [hres]
    refine ⟨rfl, uevs ++ [Event.upload loc], rfl, ?_⟩
    intro p e l hmem
    rcases List.mem_append.mp hmem with h | h
    · exact hu p e l h
    · simp at h

theorem run_from_connect_general (c : Collab) (loc : LocationId) (kept : List Entry)
    (snap0 : Option UnitMap) (prog1 : ProgressDoc) (evs1 : List Event) :
    ∃ tail, (run_from_connect c loc kept snap0 prog1 evs1).events = evs1 ++ tail ∧
      (∀ l2, Event.resetLoc l2 ∉ tail) ∧
      (∀ xs, get_progress prog1 loc = some xs →
        ∃ ys, get_progress (run_from_connect c loc kept snap0 prog1 evs1).world.progress loc
          = some (xs ++ ys)) := by
  cases hc : c.connectOk loc with
  | false =>
    rw [run_from_connect_no_connect c loc kept snap0 prog1 evs1 hc]
    refine ⟨[Event.connect], rfl, by simp, ?_⟩
    intro xs hg
    exact ⟨[], by simpa⟩
  | true =>
    rcases hf : c.fetch loc with _ | (_ | m)
    · rw [run_from_connect_fetch_fail c loc kept snap0 prog1 evs1 hc (Or.inl hf)]
      refine ⟨[Event.connect] ++ [Event.fetch loc], by simp, by simp, ?_⟩
      intro xs hg
      exact ⟨[], by simpa⟩
    · rw [run_from_connect_fetch_fail c loc kept snap0 prog1 evs1 hc (Or.inr hf)]
      refine ⟨[Event.connect] ++ [Event.fetch loc], by simp, by simp, ?_⟩
      intro xs hg
      exact ⟨[], by simpa⟩
    · rcases hloop : processUnits c loc prog1 m with ⟨p2, uevs, ex⟩
      have hshape := processUnits_events_shape c loc m prog1
      rw [hloop] at hshape
      have hnr : ∀ l2, Event.resetLoc l2 ∉ uevs := by
        intro l2 hmem
        rcases hshape _ hmem with ⟨p, e, heq, _⟩ | ⟨p, heq, _⟩ <;> cases heq
      have hprog : ∀ xs, get_progress prog1 loc = some xs →
          ∃ ys, get_progress p2 loc = some (xs ++ ys) := by
        intro xs hg
        have h2 := processUnits_progress_extends c loc m prog1 xs hg
        rw [hloop] at h2
        exact h2
      cases ex with
      | some n =>
        have hres : run_from_connect c loc kept snap0 prog1 evs1 =
            ⟨⟨kept, some m, p2⟩,
             evs1 ++ ([Event.connect] ++ [Event.fetch loc]
               ++ [Event.snapshotWrite m, Event.snapshotRead m] ++ uevs), some n⟩ := by
          simp [run_from_connect, hc, hf, hloop]
        rw [hres]
        refine ⟨_, rfl, ?_, fun xs hg => hprog xs hg⟩
        intro l2 hmem
        simp at hmem
        exact hnr l2 hmem
      | none =>
        have hres : run_from_connect c loc kept snap0 prog1 evs1 =
            ⟨⟨kept, some m, p2⟩,
             evs1 ++ ([Event.connect] ++ [Event.fetch loc]
               ++ [Event.snapshotWrite m, Event.snapshotRead m] ++ uevs
               ++ [Event.upload loc]), none⟩ := by
          simp [run_from_connect, hc, hf, hloop]
        rw [hres]
        refine ⟨_, rfl, ?_, fun xs hg => hprog xs hg⟩
        intro l2 hmem
        simp at hmem
        exact hnr l2 hmem

theorem run_from_connect_failure (c : Collab) (loc : LocationId) (kept : List Entry)
    (snap0 : Option UnitMap) (prog1 : ProgressDoc) (evs1 : List Event)
    (hfail : c.connectOk loc = false ∨ c.fetch loc = none ∨ c.fetch loc = some none) :
    ∃ tail, run_from_connect c loc kept snap0 prog1 evs1 =
        ⟨⟨kept, snap0, prog1⟩, evs1 ++ tail, some 1⟩ ∧
      ∀ ev ∈ tail, isSetup ev = true := by
  cases hc : c.connectOk loc with
  | false =>
    refine ⟨[Event.connect], run_from_connect_no_connect c loc kept snap0 prog1 evs1 hc, ?_⟩
    simp [isSetup]
  | true =>
    have hff : c.fetch loc = none ∨ c.fetch loc = some none := by
      rcases hfail with h | h | h
      · rw [hc] at h
        cases h
      · exact Or.inl h
      · exact Or.inr h
    refine ⟨[Event.connect] ++ [Event.fetch loc], ?_, ?_⟩
    · rw [run_from_connect_fetch_fail c loc kept snap0 prog1 evs1 hc hff]
      simp
    · intro ev hev
      simp at hev
      rcases hev with rfl | rfl <;> rfl

/-! ### Claim theorems -/

/-- C10: `process_location`'s observable behaviour (calls made, files
written, progress recorded, exit status) is identical for any two
`ProgressTracker` values supplied as its third parameter, because the
parameter is rebound to a freshly constructed tracker over
`logs/progress.json` (line 49) before any use. -/
theorem C10_tracker_argument_ignored (c : Collab) (loc : LocationId)
    (t1 t2 : ProgressTracker) (w : World) :
    process_location c loc t1 w = process_location c loc t2 w := rfl

/-- C2: in a location run that reaches the processing stage, the loop
invokes the per-unit collaborator exactly once per PatientId of the
snapshot, in snapshot order, with `(patientId, encounterIds, locationId)`,
records each PatientId immediately after the call, and iterates the entire
snapshot regardless of the previously loaded resume marker (the prefix
before the loop contains no per-unit call and no progress record). -/
theorem C2_processing_loop_full_snapshot (c : Collab) (loc : LocationId)
    (t : ProgressTracker) (w : World) (kept : List Entry) (cevs : List Event)
    (m : UnitMap)
    (hclear : clearFolder c w.staging = ⟨kept, cevs, none⟩)
    (hconn : c.connectOk loc = true)
    (hfetch : c.fetch loc = some (some m))
    (hproc : ∀ u ∈ m, c.procOk u.1 u.2 loc = true) :
    ∃ pre, (process_location c loc t w).events =
        pre ++ unitEvents loc m ++ [Event.upload loc] ∧
      ∀ p e l, Event.procUnit p e l ∉ pre ∧ Event.recordProg l p ∉ pre := by
  have hun := events_of_clear c w.staging kept cevs none hclear
  cases hget : get_progress w.progress loc with
  | none =>
    rw [process_location_first c loc t w kept cevs hclear hget,
      run_from_connect_all_ok c loc kept w.snapshot _ _ m hconn hfetch hproc]
    refine ⟨cevs ++ [Event.mkTracker "logs/progress.json"] ++ [Event.resetLoc loc]
      ++ [Event.connect] ++ [Event.fetch loc]
      ++ [Event.snapshotWrite m, Event.snapshotRead m], by simp, ?_⟩
    intro p e l
    refine ⟨fun hmem => ?_, fun hmem => ?_⟩ <;>
      · simp only [List.mem_append, List.mem_singleton, List.mem_cons,
          List.not_mem_nil, or_false] at hmem
        rcases hmem with ((((hmem | hmem) | hmem) | hmem) | hmem) | hmem | hmem <;>
          first
          | (obtain ⟨n, hn⟩ := hun _ hmem; cases hn)
          | cases hmem
  | some xs =>
    rw [process_location_resume c loc t w kept cevs xs hclear hget,
      run_from_connect_all_ok c loc kept w.snapshot _ _ m hconn hfetch hproc]
    refine ⟨cevs ++ [Event.mkTracker "logs/progress.json"]
      ++ [Event.connect] ++ [Event.fetch loc]
      ++ [Event.snapshotWrite m, Event.snapshotRead m], by simp, ?_⟩
    intro p e l
    refine ⟨fun hmem => ?_, fun hmem => ?_⟩ <;>
      · simp only [List.mem_append, List.mem_singleton, List.mem_cons,
          List.not_mem_nil, or_false] at hmem
        rcases hmem with (((hmem | hmem) | hmem) | hmem) | hmem | hmem <;>
          first
          | (obtain ⟨n, hn⟩ := hun _ hmem; cases hn)
          | cases hmem

/-- Closed witness for C2: a resumed location whose progress already
contains "P1" still processes the whole two-unit snapshot. -/
theorem C2_witness :
    ∃ pre, (process_location cAllOk "L1" t0 w1).events =
        pre ++ unitEvents "L1" mFix ++ [Event.upload "L1"] ∧
      ∀ p e l, Event.procUnit p e l ∉ pre ∧ Event.recordProg l p ∉ pre :=
  C2_processing_loop_full_snapshot cAllOk "L1" t0 w1 [⟨"sub", false⟩]
    [Event.unlink "a.json"] mFix (by decide) rfl rfl (by decide)

/-- C1: if the per-unit collaborator raises on the k-th PatientId of the
snapshot, the run stops there: non-zero exit, the collaborator calls are
exactly those for the first k units (no subsequent PatientId attempted),
the units recorded before the failure remain in the progress document,
and no later location in the batch is attempted. -/
theorem C1_unit_failure_aborts (c : Collab) (loc : LocationId) (t : ProgressTracker)
    (w : World) (kept : List Entry) (cevs : List Event) (pre post : UnitMap)
    (pid : PatientId) (encs : List EncounterId) (rest : List LocationId)
    (hclear : clearFolder c w.staging = ⟨kept, cevs, none⟩)
    (hconn : c.connectOk loc = true)
    (hfetch : c.fetch loc = some (some (pre ++ (pid, encs) :: post)))
    (hpre : ∀ u ∈ pre, c.procOk u.1 u.2 loc = true)
    (hfail : c.procOk pid encs loc = false) :
    (process_location c loc t w).exit = some 1 ∧
    procEvents (process_location c loc t w).events =
      (pre ++ [(pid, encs)]).map (fun u => Event.procUnit u.1 u.2 loc) ∧
    get_progress (process_location c loc t w).world.progress loc =
      some ((get_progress w.progress loc).getD [] ++ pre.map Prod.fst) ∧
    runLocations c w (loc :: rest) =
      ⟨(process_location c loc t w).world,
       Event.mkTracker "logs/progress.json" :: (process_location c loc t w).events,
       some 1⟩ := by
  have hun := events_of_clear c w.staging kept cevs none hclear
  have hcf : List.filter isProcUnit cevs = [] := procEvents_of_unlink cevs hun
  have hfu : List.filter isProcUnit (unitEvents loc pre) =
      pre.map (fun u => Event.procUnit u.1 u.2 loc) := procEvents_unitEvents loc pre
  have htr : process_location c loc (⟨"logs/progress.json"⟩ : ProgressTracker) w
      = process_location c loc t w := rfl
  cases hget : get_progress w.progress loc with
  | none =>
    have hres : process_location c loc t w =
        ⟨⟨kept, some (pre ++ (pid, encs) :: post),
          recordAll (reset_progress w.progress loc) loc pre⟩,
         cevs ++ [Event.mkTracker "logs/progress.json"] ++ [Event.resetLoc loc]
           ++ [Event.connect] ++ [Event.fetch loc]
           ++ [Event.snapshotWrite (pre ++ (pid, encs) :: post),
               Event.snapshotRead (pre ++ (pid, encs) :: post)]
           ++ unitEvents loc pre ++ [Event.procUnit pid encs loc], some 1⟩ := by
      rw [process_location_first c loc t w kept cevs hclear hget,
        run_from_connect_unit_fail c loc kept w.snapshot _ _ pre post pid encs
          hconn hfetch hpre hfail]
    have hg0 : get_progress (reset_progress w.progress loc) loc = some [] :=
      get_setEntry_self _ _ _
    refine ⟨by rw [hres], ?_, ?_, ?_⟩
    · rw [hres]
      simp [procEvents, hcf, hfu, isProcUnit]
    · rw [hres]
      dsimp only
      rw [get_recordAll _ _ _ [] hg0]
      simp
    · rw [runLocations, htr, hres]
  | some xs =>
    have hres : process_location c loc t w =
        ⟨⟨kept, some (pre ++ (pid, encs) :: post), recordAll w.progress loc pre⟩,
         cevs ++ [Event.mkTracker "logs/progress.json"]
           ++ [Event.connect] ++ [Event.fetch loc]
           ++ [Event.snapshotWrite (pre ++ (pid, encs) :: post),
               Event.snapshotRead (pre ++ (pid, encs) :: post)]
           ++ unitEvents loc pre ++ [Event.procUnit pid encs loc], some 1⟩ := by
      rw [process_location_resume c loc t w kept cevs xs hclear hget,
        run_from_connect_unit_fail c loc kept w.snapshot _ _ pre post pid encs
          hconn hfetch hpre hfail]
    refine ⟨by rw [hres], ?_, ?_, ?_⟩
    · rw [hres]
      simp [procEvents, hcf, hfu, isProcUnit]
    · rw [hres]
      dsimp only
      rw [get_recordAll _ _ _ xs hget]
      simp
    · rw [runLocations, htr, hres]

/-- Closed witness for C1: the collaborator fails on "P2", the second of
three units; only "P1" and "P2" are attempted, only "P1" is newly
recorded, and location "L2" is never reached. -/
theorem C1_witness :
    (process_location cFailP2 "L1" t0 w0).exit = some 1 ∧
    procEvents (process_location cFailP2 "L1" t0 w0).events =
      ([("P1", ["E1"]), ("P2", ["E2"])] : UnitMap).map
        (fun u => Event.procUnit u.1 u.2 "L1") ∧
    get_progress (process_location cFailP2 "L1" t0 w0).world.progress "L1" =
      some ((get_progress w0.progress "L1").getD [] ++
        ([("P1", ["E1"])] : UnitMap).map Prod.fst) ∧
    runLocations cFailP2 w0 ["L1", "L2"] =
      ⟨(process_location cFailP2 "L1" t0 w0).world,
       Event.mkTracker "logs/progress.json" :: (process_location cFailP2 "L1" t0 w0).events,
       some 1⟩ :=
  C1_unit_failure_aborts cFailP2 "L1" t0 w0 [] [] [("P1", ["E1"])] [("P3", ["E3"])]
    "P2" ["E2"] ["L2"] (by decide) rfl rfl (by decide) (by decide)

/-- C3: with a successful fetch, the fetched unit map is written to the
durable snapshot file (overwriting any previous content, whatever
`w.snapshot` was) before any per-unit processing occurs, then read back,
and the map driving the processing loop is the read-back map, equal to
the fetched map. -/
theorem C3_snapshot_write_then_read (c : Collab) (loc : LocationId)
    (t : ProgressTracker) (w : World) (kept : List Entry) (cevs : List Event)
    (m : UnitMap)
    (hclear : clearFolder c w.staging = ⟨kept, cevs, none⟩)
    (hconn : c.connectOk loc = true)
    (hfetch : c.fetch loc = some (some m)) :
    (process_location c loc t w).world.snapshot = some m ∧
    ∃ preEvs postEvs,
      (process_location c loc t w).events =
        preEvs ++ [Event.snapshotWrite m, Event.snapshotRead m] ++ postEvs ∧
      (∀ p e l, Event.procUnit p e l ∉ preEvs) ∧
      (∀ m2, Event.snapshotWrite m2 ∉ preEvs) ∧
      (∀ p e l, Event.procUnit p e l ∈ postEvs → (p, e) ∈ m ∧ l = loc) := by
  have hun := events_of_clear c w.staging kept cevs none hclear
  have hcset : ∀ ev ∈ cevs, isSetup ev = true := isSetup_of_unlink cevs hun
  cases hget : get_progress w.progress loc with
  | none =>
    rw [process_location_first c loc t w kept cevs hclear hget]
    obtain ⟨hsnap, tail, hev, htail⟩ :=
      run_from_connect_fetch_ok c loc kept w.snapshot (reset_progress w.progress loc)
        (cevs ++ [Event.mkTracker "logs/progress.json"] ++ [Event.resetLoc loc])
        m hconn hfetch
    have hset : ∀ ev ∈ cevs ++ [Event.mkTracker "logs/progress.json"]
        ++ [Event.resetLoc loc] ++ [Event.connect] ++ [Event.fetch loc],
        isSetup ev = true := by
      refine forall_setup_append _ _ (forall_setup_append _ _ (forall_setup_append _ _
        (forall_setup_append _ _ hcset ?_) ?_) ?_) ?_ <;> simp [isSetup]
    refine ⟨hsnap, cevs ++ [Event.mkTracker "logs/progress.json"]
      ++ [Event.resetLoc loc] ++ [Event.connect] ++ [Event.fetch loc], tail, ?_,
      fun p e l => no_procUnit_of_setup _ hset p e l,
      fun m2 => no_snapshotWrite_of_setup _ hset m2, htail⟩
    rw [hev]
  | some xs =>
    rw [process_location_resume c loc t w kept cevs xs hclear hget]
    obtain ⟨hsnap, tail, hev, htail⟩ :=
      run_from_connect_fetch_ok c loc kept w.snapshot w.progress
        (cevs ++ [Event.mkTracker "logs/progress.json"]) m hconn hfetch
    have hset : ∀ ev ∈ cevs ++ [Event.mkTracker "logs/progress.json"]
        ++ [Event.connect] ++ [Event.fetch loc], isSetup ev = true := by
      refine forall_setup_append _ _ (forall_setup_append _ _
        (forall_setup_append _ _ hcset ?_) ?_) ?_ <;> simp [isSetup]
    refine ⟨hsnap, cevs ++ [Event.mkTracker "logs/progress.json"]
      ++ [Event.connect] ++ [Event.fetch loc], tail, ?_,
      fun p e l => no_procUnit_of_setup _ hset p e l,
      fun m2 => no_snapshotWrite_of_setup _ hset m2, htail⟩
    rw [hev]

/-- Closed witness for C3 at a concrete run whose previous snapshot file
content (for another patient) is overwritten. -/
theorem C3_witness :
    (process_location cAllOk "L1" t0 w1).world.snapshot = some mFix ∧
    ∃ preEvs postEvs,
      (process_location cAllOk "L1" t0 w1).events =
        preEvs ++ [Event.snapshotWrite mFix, Event.snapshotRead mFix] ++ postEvs ∧
      (∀ p e l, Event.procUnit p e l ∉ preEvs) ∧
      (∀ m2, Event.snapshotWrite m2 ∉ preEvs) ∧
      (∀ p e l, Event.procUnit p e l ∈ postEvs → (p, e) ∈ mFix ∧ l = "L1") :=
  C3_snapshot_write_then_read cAllOk "L1" t0 w1 [⟨"sub", false⟩]
    [Event.unlink "a.json"] mFix (by decide) rfl rfl

/-- C4: `reset` is invoked exactly when `get(location)` returned `None`;
for a previously seen location the loaded completed set is kept: the
run's final progress entry for the location extends the initial one, so
previously recorded PatientIds are never discarded. -/
theorem C4_reset_iff_uninitialized (c : Collab) (loc : LocationId)
    (t : ProgressTracker) (w : World) (kept : List Entry) (cevs : List Event)
    (hclear : clearFolder c w.staging = ⟨kept, cevs, none⟩) :
    ((Event.resetLoc loc ∈ (process_location c loc t w).events) ↔
      get_progress w.progress loc = none) ∧
    ∀ xs, get_progress w.progress loc = some xs →
      ∃ ys, get_progress (process_location c loc t w).world.progress loc =
        some (xs ++ ys) := by
  have hun := events_of_clear c w.staging kept cevs none hclear
  cases hget : get_progress w.progress loc with
  | none =>
    rw [process_location_first c loc t w kept cevs hclear hget]
    obtain ⟨tail, hev, hnr, hprog⟩ :=
      run_from_connect_general c loc kept w.snapshot (reset_progress w.progress loc)
        (cevs ++ [Event.mkTracker "logs/progress.json"] ++ [Event.resetLoc loc])
    constructor
    · rw [hev]
      simp
    · intro xs hxs
      cases hxs
  | some xs0 =>
    rw [process_location_resume c loc t w kept cevs xs0 hclear hget]
    obtain ⟨tail, hev, hnr, hprog⟩ :=
      run_from_connect_general c loc kept w.snapshot w.progress
        (cevs ++ [Event.mkTracker "logs/progress.json"])
    constructor
    · rw [hev]
      simp only [List.mem_append]
      constructor
      · rintro ((h | h) | h)
        · obtain ⟨n, hn⟩ := hun _ h
          cases hn
        · simp at h
        · exact absurd h (hnr loc)
      · intro h
        simp at h
    · intro xs hxs
      obtain ⟨ys, hy⟩ := hprog xs0 hget
      injection hxs with hxx
      subst hxx
      exact ⟨ys, hy⟩

/-- Closed witness for C4: location "L1" was seen before (progress holds
"P1"), so no reset happens and the final progress extends ["P1"]. -/
theorem C4_witness :
    ((Event.resetLoc "L1" ∈ (process_location cAllOk "L1" t0 w1).events) ↔
      get_progress w1.progress "L1" = none) ∧
    ∀ xs, get_progress w1.progress "L1" = some xs →
      ∃ ys, get_progress (process_location cAllOk "L1" t0 w1).world.progress "L1" =
        some (xs ++ ys) :=
  C4_reset_iff_uninitialized cAllOk "L1" t0 w1 [⟨"sub", false⟩]
    [Event.unlink "a.json"] (by decide)

/-- C5: a connect failure, a fetch raise, or a fetch returning `None` is
fatal: non-zero exit, no snapshot produced (the snapshot file keeps its
previous content), no per-unit processing, no upload, and no remaining
location of the batch attempted. -/
theorem C5_connect_or_fetch_failure_fatal (c : Collab) (loc : LocationId)
    (t : ProgressTracker) (w : World) (kept : List Entry) (cevs : List Event)
    (rest : List LocationId)
    (hclear : clearFolder c w.staging = ⟨kept, cevs, none⟩)
    (hfail : c.connectOk loc = false ∨ c.fetch loc = none ∨ c.fetch loc = some none) :
    (process_location c loc t w).exit = some 1 ∧
    (process_location c loc t w).world.snapshot = w.snapshot ∧
    (∀ m, Event.snapshotWrite m ∉ (process_location c loc t w).events) ∧
    (∀ p e l, Event.procUnit p e l ∉ (process_location c loc t w).events) ∧
    (∀ l, Event.upload l ∉ (process_location c loc t w).events) ∧
    runLocations c w (loc :: rest) =
      ⟨(process_location c loc t w).world,
       Event.mkTracker "logs/progress.json" :: (process_location c loc t w).events,
       some 1⟩ := by
  have hun := events_of_clear c w.staging kept cevs none hclear
  have hcset : ∀ ev ∈ cevs, isSetup ev = true := isSetup_of_unlink cevs hun
  have htr : process_location c loc (⟨"logs/progress.json"⟩ : ProgressTracker) w
      = process_location c loc t w := rfl
  cases hget : get_progress w.progress loc with
  | none =>
    obtain ⟨tail, heq, hset⟩ :=
      run_from_connect_failure c loc kept w.snapshot (reset_progress w.progress loc)
        (cevs ++ [Event.mkTracker "logs/progress.json"] ++ [Event.resetLoc loc]) hfail
    have hres : process_location c loc t w =
        ⟨⟨kept, w.snapshot, reset_progress w.progress loc⟩,
         cevs ++ [Event.mkTracker "logs/progress.json"] ++ [Event.resetLoc loc]
           ++ tail, some 1⟩ := by
      rw [process_location_first c loc t w kept cevs hclear hget, heq]
    have hallset : ∀ ev ∈ cevs ++ [Event.mkTracker "logs/progress.json"]
        ++ [Event.resetLoc loc] ++ tail, isSetup ev = true := by
      refine forall_setup_append _ _ (forall_setup_append _ _
        (forall_setup_append _ _ hcset ?_) ?_) hset <;> simp [isSetup]
    refine ⟨by rw [hres], by rw [hres], ?_, ?_, ?_, ?_⟩
    · intro m
      rw [hres]
      exact no_snapshotWrite_of_setup _ hallset m
    · intro p e l
      rw [hres]
      exact no_procUnit_of_setup _ hallset p e l
    · intro l2
      rw [hres]
      exact no_upload_of_setup _ hallset l2
    · rw [runLocations, htr, hres]
  | some xs =>
    obtain ⟨tail, heq, hset⟩ :=
      run_from_connect_failure c loc kept w.snapshot w.progress
        (cevs ++ [Event.mkTracker "logs/progress.json"]) hfail
    have hres : process_location c loc t w =
        ⟨⟨kept, w.snapshot, w.progress⟩,
         cevs ++ [Event.mkTracker "logs/progress.json"] ++ tail, some 1⟩ := by
      rw [process_location_resume c loc t w kept cevs xs hclear hget, heq]
    have hallset : ∀ ev ∈ cevs ++ [Event.mkTracker "logs/progress.json"]
        ++ tail, isSetup ev = true := by
      refine forall_setup_append _ _ (forall_setup_append _ _ hcset ?_) hset
      simp [isSetup]
    refine ⟨by rw [hres], by rw [hres], ?_, ?_, ?_, ?_⟩
    · intro m
      rw [hres]
      exact no_snapshotWrite_of_setup _ hallset m
    · intro p e l
      rw [hres]
      exact no_procUnit_of_setup _ hallset p e l
    · intro l2
      rw [hres]
      exact no_upload_of_setup _ hallset l2
    · rw [runLocations, htr, hres]

/-- Closed witness for C5: the fetch returns `None` for "L1"; the run
aborts with exit 1 and "L2" is never attempted. -/
theorem C5_witness :
    (process_location cNoFetch "L1" t0 w0).exit = some 1 ∧
    (process_location cNoFetch "L1" t0 w0).world.snapshot = w0.snapshot ∧
    (∀ m, Event.snapshotWrite m ∉ (process_location cNoFetch "L1" t0 w0).events) ∧
    (∀ p e l, Event.procUnit p e l ∉ (process_location cNoFetch "L1" t0 w0).events) ∧
    (∀ l, Event.upload l ∉ (process_location cNoFetch "L1" t0 w0).events) ∧
    runLocations cNoFetch w0 ["L1", "L2"] =
      ⟨(process_location cNoFetch "L1" t0 w0).world,
       Event.mkTracker "logs/progress.json" ::
         (process_location cNoFetch "L1" t0 w0).events, some 1⟩ :=
  C5_connect_or_fetch_failure_fatal cNoFetch "L1" t0 w0 [] [] ["L2"]
    (by decide) (Or.inr (Or.inr rfl))

/-! ### Counting lemmas for upload and tracker-construction events -/

theorem countUpload_append (l1 l2 : List Event) :
    countUpload (l1 ++ l2) = countUpload l1 + countUpload l2 := by
  simp [countUpload, List.countP_append]

theorem countUpload_of_setup (l : List Event) (h : ∀ ev ∈ l, isSetup ev = true) :
    countUpload l = 0 := by
  induction l with
  | nil => rfl
  | cons ev rest ih =>
    have h1 := h ev (List.mem_cons_self _ _)
    have h2 := ih fun x hx => h x (List.mem_cons_of_mem _ hx)
    simp only [countUpload, List.countP_cons] at h2 ⊢
    cases ev <;> simp_all [isSetup, isUpload]

theorem countUpload_unitEvents (loc : LocationId) (m : UnitMap) :
    countUpload (unitEvents loc m) = 0 := by
  induction m with
  | nil => rfl
  | cons u rest ih =>
    obtain ⟨p, e⟩ := u
    simp only [unitEvents, countUpload, List.countP_cons] at ih ⊢
    simp [isUpload, ih]

theorem countUpload_zero_of_not_mem (l : List Event)
    (h : ∀ lo, Event.upload lo ∉ l) : countUpload l = 0 := by
  induction l with
  | nil => rfl
  | cons ev rest ih =>
    have hrest : ∀ lo, Event.upload lo ∉ rest :=
      fun lo hmem => h lo (List.mem_cons_of_mem _ hmem)
    have hhead : isUpload ev = false := by
      cases ev
      case upload lo => exact absurd (List.mem_cons_self _ _) (h lo)
      all_goals rfl
    have h2 := ih hrest
    simp only [countUpload, List.countP_cons] at h2 ⊢
    rw [h2, hhead]
    simp

theorem countUpload_uevs_of_loop (c : Collab) (loc : LocationId) (m : UnitMap)
    (prog : ProgressDoc) : countUpload (processUnits c loc prog m).events = 0 := by
  refine countUpload_zero_of_not_mem _ fun lo hmem => ?_
  rcases processUnits_events_shape c loc m prog _ hmem with ⟨p, e, heq, _⟩ | ⟨p, heq, _⟩ <;>
    cases heq

theorem run_from_connect_no_upload_on_abort (c : Collab) (loc : LocationId)
    (kept : List Entry) (snap0 : Option UnitMap) (prog1 : ProgressDoc)
    (evs1 : List Event) (n : Nat)
    (hevs1 : countUpload evs1 = 0)
    (h : (run_from_connect c loc kept snap0 prog1 evs1).exit = some n) :
    countUpload (run_from_connect c loc kept snap0 prog1 evs1).events = 0 := by
  cases hc : c.connectOk loc with
  | false =>
    rw [run_from_connect_no_connect c loc kept snap0 prog1 evs1 hc]
    show countUpload (evs1 ++ [Event.connect]) = 0
    rw [countUpload_append, hevs1]
    rfl
  | true =>
    rcases hf : c.fetch loc with _ | (_ | m)
    · rw [run_from_connect_fetch_fail c loc kept snap0 prog1 evs1 hc (Or.inl hf)]
      show countUpload (evs1 ++ [Event.connect] ++ [Event.fetch loc]) = 0
      simp only [countUpload_append, hevs1]
      rfl
    · rw [run_from_connect_fetch_fail c loc kept snap0 prog1 evs1 hc (Or.inr hf)]
      show countUpload (evs1 ++ [Event.connect] ++ [Event.fetch loc]) = 0
      simp only [countUpload_append, hevs1]
      rfl
    · rcases hloop : processUnits c loc prog1 m with ⟨p2, uevs, ex⟩
      have huevs : countUpload uevs = 0 := by
        have h2 := countUpload_uevs_of_loop c loc m prog1
        rw [hloop] at h2
        exact h2
      cases ex with
      | some n2 =>
        have hres : run_from_connect c loc kept snap0 prog1 evs1 =
            ⟨⟨kept, some m, p2⟩,
             evs1 ++ ([Event.connect] ++ [Event.fetch loc]
               ++ [Event.snapshotWrite m, Event.snapshotRead m] ++ uevs), some n2⟩ := by
          simp [run_from_connect, hc, hf, hloop]
        rw [hres]
        show countUpload (evs1 ++ ([Event.connect] ++ [Event.fetch loc]
          ++ [Event.snapshotWrite m, Event.snapshotRead m] ++ uevs)) = 0
        simp only [countUpload_append, hevs1, huevs]
        rfl
      | none =>
        have hres : (run_from_connect c loc kept snap0 prog1 evs1).exit = none := by
          simp [run_from_connect, hc, hf, hloop]
        rw [hres] at h
        cases h

theorem process_location_no_upload_on_abort (c : Collab) (loc : LocationId)
    (t : ProgressTracker) (w : World) (n : Nat)
    (h : (process_location c loc t w).exit = some n) :
    countUpload (process_location c loc t w).events = 0 := by
  rcases hcl : clearFolder c w.staging with ⟨kept, cevs, ex⟩
  have hcset : ∀ ev ∈ cevs, isSetup ev = true :=
    isSetup_of_unlink cevs (events_of_clear c w.staging kept cevs ex hcl)
  have hc0 : countUpload cevs = 0 := countUpload_of_setup cevs hcset
  cases ex with
  | some n2 =>
    rw [process_location_clear_fail c loc t w kept cevs n2 hcl]
    exact hc0
  | none =>
    cases hget : get_progress w.progress loc with
    | none =>
      rw [process_location_first c loc t w kept cevs hcl hget] at h ⊢
      refine run_from_connect_no_upload_on_abort c loc kept w.snapshot _ _ n ?_ h
      simp only [countUpload_append, hc0]
      rfl
    | some xs =>
      rw [process_location_resume c loc t w kept cevs xs hcl hget] at h ⊢
      refine run_from_connect_no_upload_on_abort c loc kept w.snapshot _ _ n ?_ h
      simp only [countUpload_append, hc0]
      rfl

/-- C7: once every unit of the snapshot has processed without error, the
upload collaborator is invoked exactly once for the location — whatever
the staging directory holds — and an aborted run (non-zero exit) never
invokes it. -/
theorem C7_upload_exactly_once (c : Collab) (loc : LocationId) (t : ProgressTracker)
    (w : World) (kept : List Entry) (cevs : List Event) (m : UnitMap)
    (hclear : clearFolder c w.staging = ⟨kept, cevs, none⟩)
    (hconn : c.connectOk loc = true)
    (hfetch : c.fetch loc = some (some m))
    (hproc : ∀ u ∈ m, c.procOk u.1 u.2 loc = true) :
    countUpload (process_location c loc t w).events = 1 ∧
    (process_location c loc t w).exit = none ∧
    ∀ c2 loc2 t2 w2 n2, (process_location c2 loc2 t2 w2).exit = some n2 →
      countUpload (process_location c2 loc2 t2 w2).events = 0 := by
  have hun := events_of_clear c w.staging kept cevs none hclear
  have hc0 : countUpload cevs = 0 :=
    countUpload_of_setup cevs (isSetup_of_unlink cevs hun)
  have hcount : countUpload (process_location c loc t w).events = 1 := by
    cases hget : get_progress w.progress loc with
    | none =>
      rw [process_location_first c loc t w kept cevs hclear hget,
        run_from_connect_all_ok c loc kept w.snapshot _ _ m hconn hfetch hproc]
      simp only [countUpload_append, hc0, countUpload_unitEvents]
      rfl
    | some xs =>
      rw [process_location_resume c loc t w kept cevs xs hclear hget,
        run_from_connect_all_ok c loc kept w.snapshot _ _ m hconn hfetch hproc]
      simp only [countUpload_append, hc0, countUpload_unitEvents]
      rfl
  have hexit : (process_location c loc t w).exit = none := by
    cases hget : get_progress w.progress loc with
    | none =>
      rw [process_location_first c loc t w kept cevs hclear hget,
        run_from_connect_all_ok c loc kept w.snapshot _ _ m hconn hfetch hproc]
    | some xs =>
      rw [process_location_resume c loc t w kept cevs xs hclear hget,
        run_from_connect_all_ok c loc kept w.snapshot _ _ m hconn hfetch hproc]
  exact ⟨hcount, hexit, fun c2 loc2 t2 w2 n2 h2 =>
    process_location_no_upload_on_abort c2 loc2 t2 w2 n2 h2⟩

/-- Closed witness for C7: the fully successful two-unit run hands off for
upload exactly once. -/
theorem C7_witness :
    countUpload (process_location cAllOk "L1" t0 w1).events = 1 ∧
    (process_location cAllOk "L1" t0 w1).exit = none ∧
    ∀ c2 loc2 t2 w2 n2, (process_location c2 loc2 t2 w2).exit = some n2 →
      countUpload (process_location c2 loc2 t2 w2).events = 0 :=
  C7_upload_exactly_once cAllOk "L1" t0 w1 [⟨"sub", false⟩]
    [Event.unlink "a.json"] mFix (by decide) rfl rfl (by decide)

/-- C8: the staging clear removes exactly the regular files directly inside
the directory and leaves subdirectories (and their contents) untouched;
any individual deletion failure exits non-zero and is fatal for the whole
batch; and the clear runs at the very start of every location run, before
the fetch and before any per-unit processing. -/
theorem C8_staging_clear (c : Collab) (l : List Entry) (loc : LocationId)
    (t : ProgressTracker) (w : World) (rest : List LocationId) :
    ((∀ e ∈ l, e.isFile = true → c.unlinkOk e.name = true) →
      clearFolder c l = ⟨l.filter (fun e => !e.isFile),
        (l.filter (fun e => e.isFile)).map (fun e => Event.unlink e.name), none⟩) ∧
    ((∃ e ∈ l, e.isFile = true ∧ c.unlinkOk e.name = false) →
      (clearFolder c l).exit = some 1) ∧
    ((∃ e ∈ w.staging, e.isFile = true ∧ c.unlinkOk e.name = false) →
      (process_location c loc t w).exit = some 1 ∧
      (runLocations c w (loc :: rest)).exit = some 1) ∧
    (∃ tailEvs, (process_location c loc t w).events =
      (clearFolder c w.staging).events ++ tailEvs) ∧
    (∀ l2, Event.fetch l2 ∉ (clearFolder c w.staging).events) ∧
    (∀ p e l2, Event.procUnit p e l2 ∉ (clearFolder c w.staging).events) := by
  refine ⟨clearFolder_all_ok c l, clearFolder_fail c l, ?_, ?_, ?_, ?_⟩
  · intro hex
    rcases hcl : clearFolder c w.staging with ⟨kept, cevs, ex⟩
    have hex1 : ex = some 1 := by
      have h2 := clearFolder_fail c w.staging hex
      rw [hcl] at h2
      exact h2
    subst hex1
    constructor
    · rw [process_location_clear_fail c loc t w kept cevs 1 hcl]
    · rw [runLocations,
        process_location_clear_fail c loc (⟨"logs/progress.json"⟩ : ProgressTracker)
          w kept cevs 1 hcl]
  · rcases hcl : clearFolder c w.staging with ⟨kept, cevs, ex⟩
    cases ex with
    | some n =>
      refine ⟨[], ?_⟩
      rw [process_location_clear_fail c loc t w kept cevs n hcl]
      simp
    | none =>
      cases hget : get_progress w.progress loc with
      | none =>
        obtain ⟨tail, hev, _, _⟩ := run_from_connect_general c loc kept w.snapshot
          (reset_progress w.progress loc)
          (cevs ++ [Event.mkTracker "logs/progress.json"] ++ [Event.resetLoc loc])
        refine ⟨[Event.mkTracker "logs/progress.json"] ++ [Event.resetLoc loc] ++ tail, ?_⟩
        rw [process_location_first c loc t w kept cevs hcl hget, hev]
        simp
      | some xs =>
        obtain ⟨tail, hev, _, _⟩ := run_from_connect_general c loc kept w.snapshot
          w.progress (cevs ++ [Event.mkTracker "logs/progress.json"])
        refine ⟨[Event.mkTracker "logs/progress.json"] ++ tail, ?_⟩
        rw [process_location_resume c loc t w kept cevs xs hcl hget, hev]
        simp
  · intro l2 hmem
    obtain ⟨n, hn⟩ := clearFolder_events_unlink c w.staging _ hmem
    cases hn
  · intro p e l2 hmem
    obtain ⟨n, hn⟩ := clearFolder_events_unlink c w.staging _ hmem
    cases hn

/-- Closed witness for C8: one file and one subdirectory — the file is
removed, the directory kept; a failing unlink aborts run and batch. -/
theorem C8_witness :
    clearFolder cAllOk [⟨"f1", true⟩, ⟨"d1", false⟩] =
      ⟨[⟨"d1", false⟩], [Event.unlink "f1"], none⟩ ∧
    (clearFolder cNoDelete [⟨"f1", true⟩]).exit = some 1 ∧
    (process_location cNoDelete "L1" t0 wBad).exit = some 1 ∧
    (runLocations cNoDelete wBad ["L1", "L2"]).exit = some 1 := by
  have h1 := (C8_staging_clear cAllOk [⟨"f1", true⟩, ⟨"d1", false⟩] "L1" t0 w0 []).1
    (by decide)
  have h2 := (C8_staging_clear cNoDelete [⟨"f1", true⟩] "L1" t0 w0 []).2.1
    (by decide)
  have h3 := (C8_staging_clear cNoDelete [] "L1" t0 wBad ["L2"]).2.2.1
    (by decide)
  refine ⟨?_, h2, h3.1, h3.2⟩
  rw [h1]
  decide

/-- C9: the parsed roster equals the file's lines trimmed of surrounding
whitespace with blank lines removed, in file order; a missing roster file
or one empty after filtering exits non-zero with no location processed. -/
theorem C9_roster_parsing (lines : List String) (c : Collab) (w : World) :
    (read_location_ids (some lines) =
      (if ((lines.map strip).filter (fun s => !(s == ""))).isEmpty
        then Except.error 1
        else Except.ok ((lines.map strip).filter (fun s => !(s == ""))))) ∧
    read_location_ids none = Except.error 1 ∧
    main_run c none w = ⟨w, [], some 1⟩ ∧
    ((∀ s ∈ lines, strip s = "") → main_run c (some lines) w = ⟨w, [], some 1⟩) := by
  have hmap : (lines.filterMap fun line =>
      if strip line ≠ "" then some (strip line) else none)
      = (lines.map strip).filter (fun s => !(s == "")) := by
    induction lines with
    | nil => rfl
    | cons a as ih =>
      by_cases h : strip a = ""
      · simp [List.filterMap_cons, List.filter_cons, h]
        simpa using ih
      · simp [List.filterMap_cons, List.filter_cons, h]
        simpa using ih
  have h1 : read_location_ids (some lines) =
      (if ((lines.map strip).filter (fun s => !(s == ""))).isEmpty
        then Except.error 1
        else Except.ok ((lines.map strip).filter (fun s => !(s == "")))) := by
    simp only [read_location_ids, hmap]
  refine ⟨h1, rfl, rfl, ?_⟩
  intro hblank
  have hnil : ∀ ls : List String, (∀ s ∈ ls, strip s = "") →
      ((ls.map strip).filter (fun s => !(s == ""))) = [] := by
    intro ls
    induction ls with
    | nil => exact fun _ => rfl
    | cons a as ih =>
      intro hb
      have ha := hb a (List.mem_cons_self _ _)
      have h2 := ih fun s hs => hb s (List.mem_cons_of_mem _ hs)
      simp [List.filter_cons, ha, h2]
  rw [main_run, h1, hnil lines hblank]
  simp

/-- Closed witness for C9: a roster with whitespace and blank lines parses
to the stripped identifiers; a missing or all-blank roster exits 1. -/
theorem C9_witness :
    read_location_ids (some ["  ", " A ", "", "B"]) = Except.ok ["A", "B"] ∧
    main_run cAllOk none w0 = ⟨w0, [], some 1⟩ ∧
    main_run cAllOk (some ["", "  "]) w0 = ⟨w0, [], some 1⟩ := by
  refine ⟨?_, (C9_roster_parsing [] cAllOk w0).2.2.1,
    (C9_roster_parsing ["", "  "] cAllOk w0).2.2.2 (by decide)⟩
  rw [(C9_roster_parsing ["  ", " A ", "", "B"] cAllOk w0).1]
  rfl

/-! ### Lemmas for the batch driver (C6) -/

theorem unitEvents_shape (loc : LocationId) (m : UnitMap) :
    ∀ ev ∈ unitEvents loc m,
      (∃ p e, ev = Event.procUnit p e loc) ∨ (∃ p, ev = Event.recordProg loc p) := by
  induction m with
  | nil => simp [unitEvents]
  | cons u rest ih =>
    obtain ⟨p, e⟩ := u
    intro ev hev
    simp only [unitEvents, List.mem_cons] at hev
    rcases hev with rfl | rfl | hev
    · exact Or.inl ⟨p, e, rfl⟩
    · exact Or.inr ⟨p, rfl⟩
    · exact ih ev hev

theorem fetchLocs_append (l1 l2 : List Event) :
    fetchLocs (l1 ++ l2) = fetchLocs l1 ++ fetchLocs l2 := by
  simp [fetchLocs]

theorem countMkTracker_append (l1 l2 : List Event) :
    countMkTracker (l1 ++ l2) = countMkTracker l1 + countMkTracker l2 := by
  simp [countMkTracker, List.countP_append]

theorem fetchLocs_nil_of_not_mem (l : List Event) (h : ∀ lo, Event.fetch lo ∉ l) :
    fetchLocs l = [] := by
  induction l with
  | nil => rfl
  | cons ev rest ih =>
    have hrest : ∀ lo, Event.fetch lo ∉ rest :=
      fun lo hmem => h lo (List.mem_cons_of_mem _ hmem)
    have h2 := ih hrest
    simp only [fetchLocs, List.filterMap_cons] at h2 ⊢
    cases ev
    case fetch lo => exact absurd (List.mem_cons_self _ _) (h lo)
    all_goals exact h2

theorem countMkTracker_zero_of_not_mem (l : List Event)
    (h : ∀ p, Event.mkTracker p ∉ l) : countMkTracker l = 0 := by
  induction l with
  | nil => rfl
  | cons ev rest ih =>
    have hrest : ∀ p, Event.mkTracker p ∉ rest :=
      fun p hmem => h p (List.mem_cons_of_mem _ hmem)
    have hhead : isMkTracker ev = false := by
      cases ev
      case mkTracker p => exact absurd (List.mem_cons_self _ _) (h p)
      all_goals rfl
    have h2 := ih hrest
    simp only [countMkTracker, List.countP_cons] at h2 ⊢
    rw [h2, hhead]
    simp

theorem process_location_success_stats (c : Collab) (loc : LocationId)
    (t : ProgressTracker) (w : World)
    (hconn : c.connectOk loc = true)
    (hfetch : ∃ m, c.fetch loc = some (some m))
    (hproc : ∀ p e l, c.procOk p e l = true)
    (hunlink : ∀ nm, c.unlinkOk nm = true) :
    (process_location c loc t w).exit = none ∧
    fetchLocs (process_location c loc t w).events = [loc] ∧
    countMkTracker (process_location c loc t w).events = 1 := by
  obtain ⟨m, hf⟩ := hfetch
  have hclear : clearFolder c w.staging =
      ⟨w.staging.filter (fun e => !e.isFile),
       (w.staging.filter (fun e => e.isFile)).map (fun e => Event.unlink e.name),
       none⟩ :=
    clearFolder_all_ok c w.staging (fun e _ _ => hunlink e.name)
  have hun : ∀ ev ∈ (w.staging.filter (fun e => e.isFile)).map
      (fun e => Event.unlink e.name), ∃ n, ev = Event.unlink n := by
    intro ev hev
    obtain ⟨e, _, rfl⟩ := List.mem_map.mp hev
    exact ⟨_, rfl⟩
  have hprocm : ∀ u ∈ m, c.procOk u.1 u.2 loc = true := fun u _ => hproc u.1 u.2 loc
  have hflc := fetchLocs_nil_of_not_mem _ (fun lo hmem => by
    obtain ⟨n, hn⟩ := hun _ hmem
    cases hn)
  have hcmc := countMkTracker_zero_of_not_mem
    ((w.staging.filter (fun e => e.isFile)).map (fun e => Event.unlink e.name))
    (fun p hmem => by
      obtain ⟨n, hn⟩ := hun _ hmem
      cases hn)
  have hflu := fetchLocs_nil_of_not_mem (unitEvents loc m) (fun lo hmem => by
    rcases unitEvents_shape loc m _ hmem with ⟨p, e, heq⟩ | ⟨p, heq⟩ <;> cases heq)
  have hcmu := countMkTracker_zero_of_not_mem (unitEvents loc m) (fun p hmem => by
    rcases unitEvents_shape loc m _ hmem with ⟨p2, e2, heq⟩ | ⟨p2, heq⟩ <;> cases heq)
  cases hget : get_progress w.progress loc with
  | none =>
    rw [process_location_first c loc t w _ _ hclear hget,
      run_from_connect_all_ok c loc _ w.snapshot _ _ m hconn hf hprocm]
    refine ⟨rfl, ?_, ?_⟩
    · simp only [fetchLocs_append, hflc, hflu]
      rfl
    · simp only [countMkTracker_append, hcmc, hcmu]
      rfl
  | some xs =>
    rw [process_location_resume c loc t w _ _ xs hclear hget,
      run_from_connect_all_ok c loc _ w.snapshot _ _ m hconn hf hprocm]
    refine ⟨rfl, ?_, ?_⟩
    · simp only [fetchLocs_append, hflc, hflu]
      rfl
    · simp only [countMkTracker_append, hcmc, hcmu]
      rfl

/-- C6, amended: the Batch Driver invokes the orchestrator once per
LocationId, strictly sequentially in roster order, but it does not share
one Progress Store instance: it constructs a fresh
`ProgressTracker('logs/progress.json')` for every location (and the
orchestrator constructs one more internally per location, giving
`2 * |roster|` constructions in total); all of them address the same
underlying progress file. -/
theorem C6_fresh_tracker_per_location (c : Collab) (w : World) (ids : List LocationId)
    (hconn : ∀ l, c.connectOk l = true)
    (hfetch : ∀ l, ∃ m, c.fetch l = some (some m))
    (hproc : ∀ p e l, c.procOk p e l = true)
    (hunlink : ∀ nm, c.unlinkOk nm = true) :
    (runLocations c w ids).exit = none ∧
    fetchLocs (runLocations c w ids).events = ids ∧
    countMkTracker (runLocations c w ids).events = 2 * ids.length := by
  induction ids generalizing w with
  | nil => exact ⟨rfl, rfl, rfl⟩
  | cons loc rest ih =>
    obtain ⟨hexit, hfl, hcm⟩ := process_location_success_stats c loc
      ⟨"logs/progress.json"⟩ w (hconn loc) (hfetch loc) hproc hunlink
    rcases hres : process_location c loc ⟨"logs/progress.json"⟩ w with ⟨w2, evs, ex⟩
    rw [hres] at hexit hfl hcm
    have hex : ex = none := hexit
    subst hex
    obtain ⟨ihe, ihf, ihc⟩ := ih w2
    simp only [runLocations, hres]
    refine ⟨ihe, ?_, ?_⟩
    · have hsplit : fetchLocs (Event.mkTracker "logs/progress.json" ::
          evs ++ (runLocations c w2 rest).events) =
          fetchLocs evs ++ fetchLocs (runLocations c w2 rest).events := by
        simp [fetchLocs]
      rw [hsplit, ihf]
      have hfl2 : fetchLocs evs = [loc] := hfl
      rw [hfl2]
      rfl
    · have hsplit : countMkTracker (Event.mkTracker "logs/progress.json" ::
          evs ++ (runLocations c w2 rest).events) =
          countMkTracker evs + countMkTracker (runLocations c w2 rest).events + 1 := by
        simp [countMkTracker, List.countP_cons, List.countP_append, isMkTracker]
      rw [hsplit, ihc]
      have hcm2 : countMkTracker evs = 1 := hcm
      rw [hcm2]
      simp [List.length_cons]
      omega

/-- C6, counterexample to the claim as stated: with the two-location
roster, both locations are processed in order, but four
`ProgressTracker` constructions occur — not one shared instance. -/
theorem C6_counterexample :
    fetchLocs (runLocations cEmptyFetch w0 ["L1", "L2"]).events = ["L1", "L2"] ∧
    countMkTracker (runLocations cEmptyFetch w0 ["L1", "L2"]).events = 4 ∧
    countMkTracker (runLocations cEmptyFetch w0 ["L1", "L2"]).events ≠ 1 := by
  refine ⟨?_, ?_, ?_⟩ <;> decide

/-- Closed witness for the amended C6 on a concrete two-location batch. -/
theorem C6_witness :
    (runLocations cEmptyFetch w0 ["L1", "L2"]).exit = none ∧
    fetchLocs (runLocations cEmptyFetch w0 ["L1", "L2"]).events = ["L1", "L2"] ∧
    countMkTracker (runLocations cEmptyFetch w0 ["L1", "L2"]).events =
      2 * (["L1", "L2"] : List LocationId).length :=
  C6_fresh_tracker_per_location cEmptyFetch w0 ["L1", "L2"]
    (fun _ => rfl) (fun _ => ⟨[], rfl⟩) (fun _ _ _ => rfl) (fun _ => rfl)

end Sync
